import Mathlib

/-!
Verification of the googlecrisismap server-side data layer.

The definitions below are shallow embeddings of the Python source files
`src/jsonp.py`, `src/model.py` and `src/catalog.py`:
  * JSON documents and the MapRoot localization functions of jsonp.py;
  * the crowd-report / crowd-vote scoring logic of model.py;
  * the map / map-version / catalog-entry datastore operations of model.py;
  * the catalog listing POST handler of catalog.py.

Python dictionaries are modelled as association lists (`List (String × Json)`
for JSON objects, `List (κ × α)` for datastore tables keyed by entity id);
timestamps are natural numbers with 0 playing the role of the NEVER sentinel;
integers are unbounded (Python ints do not overflow).  Fallible operations
return `Except`.
-/

namespace CrisisMap

/-! ## JSON values (documents handled by jsonp.py)

A JSON object is a list of key/value pairs; `json.loads` of a well-formed
document never produces duplicate keys, and the localization functions in
jsonp.py only use dictionary get / pop / update operations, embedded below.
-/

inductive Json where
  | null : Json
  | bool : Bool → Json
  | num : Int → Json
  | str : String → Json
  | arr : List Json → Json
  | obj : List (String × Json) → Json

/-- Dictionary lookup: `d.get(key)` (Python dicts have unique keys, so the
first match is the match). -/
def getKey : List (String × Json) → String → Option Json
  | [], _ => none
  | (k, v) :: rest, key => if k = key then some v else getKey rest key

/-- Key removal, the effect of `d.pop(key, default)` on the dictionary. -/
def eraseKey (kvs : List (String × Json)) (key : String) : List (String × Json) :=
  kvs.filter (fun p => p.1 ≠ key)

/-- Setting one key, as Python assignment `d[k] = v` does: an existing key
keeps its position, a new key is appended. -/
def setKeyObj : List (String × Json) → String → Json → List (String × Json)
  | [], k, v => [(k, v)]
  | (k1, v1) :: rest, k, v =>
      if k1 = k then (k, v) :: rest else (k1, v1) :: setKeyObj rest k v

/-- Dictionary merge `base.update(upd)`: every key of `upd` is set in `base`. -/
def updateObj (base upd : List (String × Json)) : List (String × Json) :=
  upd.foldl (fun acc kv => setKeyObj acc kv.1 kv.2) base

theorem mem_setKeyObj {q : String × Json} {acc : List (String × Json)}
    {k : String} {v : Json} (h : q ∈ setKeyObj acc k v) : q ∈ acc ∨ q = (k, v) := by
  induction acc with
  | nil =>
      simp only [setKeyObj, List.mem_singleton] at h
      exact Or.inr h
  | cons p rest ih =>
      simp only [setKeyObj] at h
      split at h
      · rcases List.mem_cons.1 h with h1 | h1
        · exact Or.inr h1
        · exact Or.inl (List.mem_cons_of_mem _ h1)
      · rcases List.mem_cons.1 h with h1 | h1
        · exact Or.inl (h1 ▸ List.mem_cons_self _ _)
        · rcases ih h1 with h2 | h2
          · exact Or.inl (List.mem_cons_of_mem _ h2)
          · exact Or.inr h2

theorem mem_updateObj {q : String × Json} {base upd : List (String × Json)}
    (h : q ∈ updateObj base upd) : q ∈ base ∨ q ∈ upd := by
  induction upd generalizing base with
  | nil => exact Or.inl h
  | cons kv rest ih =>
      simp only [updateObj, List.foldl_cons] at h
      rcases ih h with h1 | h1
      · rcases mem_setKeyObj h1 with h2 | h2
        · exact Or.inl h2
        · exact Or.inr (by simp [h2])
      · exact Or.inr (List.mem_cons_of_mem _ h1)

theorem mem_eraseKey {q : String × Json} {kvs : List (String × Json)} {key : String}
    (h : q ∈ eraseKey kvs key) : q ∈ kvs :=
  (List.mem_filter.1 h).1

theorem getKey_mem {kvs : List (String × Json)} {key : String} {v : Json}
    (h : getKey kvs key = some v) : (key, v) ∈ kvs := by
  induction kvs with
  | nil => simp [getKey] at h
  | cons p rest ih =>
      simp only [getKey] at h
      split at h
      · rename_i heq
        cases h
        exact heq ▸ List.mem_cons_self _ _
      · exact List.mem_cons_of_mem _ (ih h)

theorem sizeOf_snd_lt_of_mem {kvs : List (String × Json)} {k : String} {v : Json}
    (h : (k, v) ∈ kvs) : sizeOf v < sizeOf kvs := by
  have h1 := List.sizeOf_lt_of_mem h
  have h2 : sizeOf v < sizeOf (k, v) := by
    simp only [Prod.mk.sizeOf_spec]
    omega
  omega

theorem sizeOf_mem_lt {xs : List Json} {x : Json} (h : x ∈ xs) :
    sizeOf x < sizeOf xs :=
  List.sizeOf_lt_of_mem h

/-- Tests `localization.get('language') == lang` for one element of the
localizations array: only a JSON object with a string "language" field equal
to `lang` matches. -/
def locMatches (lang : String) : Json → Bool
  | .obj loc =>
      match getKey loc "language" with
      | some (.str s) => s = lang
      | _ => false
  | _ => false

/-- Extracts `localization.get(field_name, {})` from a matching localization
entry. -/
def locChild (field : String) : Json → Json
  | .obj loc => (getKey loc field).getD (.obj [])
  | _ => .obj []

/-- Embeds PopLocalizedChild's search loop (jsonp.py lines 156-158): scan the
popped list of localizations for the first one whose "language" equals `lang`
and return its `field` entry, defaulting to the empty object.  Entries that
are not JSON objects never match (the Python code assumes dict-shaped input
and would raise on anything else). -/
def findLocalizedChild (field lang : String) : List Json → Option Json
  | [] => none
  | x :: rest =>
      if locMatches lang x then some (locChild field x)
      else findLocalizedChild field lang rest

/-- Embeds `parent.pop('localized_%ss' % field_name, ())` followed by the
search: returns the localized child (if any) and the parent with the
`localized_<field>s` key removed.  A present but non-array value is treated
as having no matching localization (the Python code assumes a list there). -/
def popLocalizedChild (field lang : String) (parent : List (String × Json)) :
    Option Json × List (String × Json) :=
  match getKey parent ("localized_" ++ field ++ "s") with
  | some (.arr locs) =>
      (findLocalizedChild field lang locs, eraseKey parent ("localized_" ++ field ++ "s"))
  | some _ => (none, eraseKey parent ("localized_" ++ field ++ "s"))
  | none => (none, parent)

/-- Models `child or {}` followed by `parent.update(child)`: the merge only
happens when the child is a JSON object (a falsy or absent child contributes
nothing). -/
def childFields : Option Json → List (String × Json)
  | some (.obj o) => o
  | _ => []

/-- One merge-and-strip step, common to LocalizeLayer and LocalizeMapRoot:
`parent.update(PopLocalizedChild(parent, field, lang) or {})` where the pop
has removed the `localized_<field>s` key. -/
def mergeLocalized (field lang : String) (parent : List (String × Json)) :
    List (String × Json) :=
  updateObj (popLocalizedChild field lang parent).2
    (childFields (popLocalizedChild field lang parent).1)

theorem locChild_sizeOf (field : String) (x : Json) :
    sizeOf (locChild field x) < sizeOf x ∨ locChild field x = .obj [] := by
  cases x with
  | obj loc =>
      rcases hg : getKey loc field with _ | v
      · right; simp [locChild, hg]
      · left
        have hv := sizeOf_snd_lt_of_mem (getKey_mem hg)
        simp only [locChild, hg, Option.getD_some, Json.obj.sizeOf_spec]
        omega
  | null => right; rfl
  | bool b => right; rfl
  | num n => right; rfl
  | str s => right; rfl
  | arr xs => right; rfl

theorem findLocalizedChild_sizeOf {field lang : String} {locs : List Json} {c : Json}
    (h : findLocalizedChild field lang locs = some c) :
    sizeOf c < sizeOf locs ∨ c = .obj [] := by
  induction locs with
  | nil => simp [findLocalizedChild] at h
  | cons x rest ih =>
      have hstep : sizeOf rest < sizeOf (x :: rest) := by
        simp only [List.cons.sizeOf_spec]; omega
      simp only [findLocalizedChild] at h
      split at h
      · cases h
        rcases locChild_sizeOf field x with h1 | h1
        · left
          have hx : sizeOf x < sizeOf (x :: rest) := by
            simp only [List.cons.sizeOf_spec]; omega
          omega
        · right; exact h1
      · rcases ih h with h1 | h1
        · exact Or.inl (Nat.lt_trans h1 hstep)
        · right; exact h1

theorem popLocalizedChild_snd_mem {field lang : String} {kvs : List (String × Json)}
    {q : String × Json} (h : q ∈ (popLocalizedChild field lang kvs).2) : q ∈ kvs := by
  unfold popLocalizedChild at h
  rcases hg : getKey kvs ("localized_" ++ field ++ "s") with _ | lv
  · simp only [hg] at h; exact h
  · cases lv <;> simp only [hg] at h <;> exact mem_eraseKey h

theorem popLocalizedChild_fst_sizeOf {field lang : String} {kvs : List (String × Json)}
    {k : String} {v : Json}
    (h : (k, v) ∈ childFields (popLocalizedChild field lang kvs).1) :
    sizeOf v < sizeOf kvs := by
  unfold popLocalizedChild at h
  rcases hg : getKey kvs ("localized_" ++ field ++ "s") with _ | lv
  · simp [hg, childFields] at h
  · cases lv with
    | arr locs =>
        simp only [hg] at h
        rcases hf : findLocalizedChild field lang locs with _ | c
        · rw [hf] at h; simp [childFields] at h
        · rw [hf] at h
          cases c with
          | obj cf =>
              simp only [childFields] at h
              have hv : sizeOf v < sizeOf cf := sizeOf_snd_lt_of_mem h
              have harr : sizeOf (Json.arr locs) < sizeOf kvs :=
                sizeOf_snd_lt_of_mem (getKey_mem hg)
              rcases findLocalizedChild_sizeOf hf with h2 | h2
              · have hcf : sizeOf (Json.obj cf) = 1 + sizeOf cf := by simp
                have hlocs : sizeOf (Json.arr locs) = 1 + sizeOf locs := by simp
                omega
              · injection h2 with h3
                subst h3
                exact absurd h (List.not_mem_nil _)
          | null => simp [childFields] at h
          | bool b => simp [childFields] at h
          | num n => simp [childFields] at h
          | str s => simp [childFields] at h
          | arr ys => simp [childFields] at h
    | null => simp [hg, childFields] at h
    | bool b => simp [hg, childFields] at h
    | num n => simp [hg, childFields] at h
    | str s => simp [hg, childFields] at h
    | obj o => simp [hg, childFields] at h

theorem mem_mergeLocalized_sizeOf {field lang : String} {kvs : List (String × Json)}
    {k : String} {v : Json} (h : (k, v) ∈ mergeLocalized field lang kvs) :
    sizeOf v < 1 + sizeOf kvs := by
  unfold mergeLocalized at h
  rcases mem_updateObj h with h1 | h1
  · have := sizeOf_snd_lt_of_mem (popLocalizedChild_snd_mem h1)
    omega
  · have := popLocalizedChild_fst_sizeOf h1
    omega

/-- Embeds LocalizeLayer (jsonp.py lines 161-170): merge-and-strip the
localized variant via the `localized_layers` array, then localize every
sublayer of the merged layer in place.  Non-object layers are returned
unchanged (the Python code assumes dict-shaped layers). -/
def localizeLayer (lang : String) (j : Json) : Json :=
  match j with
  | .obj kvs =>
      .obj ((mergeLocalized "layer" lang kvs).attach.map (fun p =>
        match hp : p.1 with
        | (k, .arr xs) =>
            if k = "sublayers" then
              (k, .arr (xs.attach.map (fun q => localizeLayer lang q.1)))
            else (k, .arr xs)
        | other => other))
  | other => other
termination_by sizeOf j
decreasing_by
  have hq : sizeOf q.1 < sizeOf xs := sizeOf_mem_lt q.2
  have hp2 := hp ▸ p.2
  have harr := mem_mergeLocalized_sizeOf hp2
  have hxs : sizeOf (Json.arr xs) = 1 + sizeOf xs := by simp
  simp only [Json.obj.sizeOf_spec]
  omega

/-- Localizes every element of a JSON array of layers; values that are not
arrays are left alone (used for the value found under "layers" or
"sublayers"). -/
def localizeArr (lang : String) : Json → Json
  | .arr xs => .arr (xs.map (localizeLayer lang))
  | other => other

/-- Applies `f` to the value stored at `key`, keeping every other pair. -/
def mapAtKey (kvs : List (String × Json)) (key : String) (f : Json → Json) :
    List (String × Json) :=
  kvs.map (fun p => if p.1 = key then (p.1, f p.2) else p)

/-- Embeds LocalizeMapRoot (jsonp.py lines 173-182): merge-and-strip the
localized variant via the `localized_map_roots` array, then localize every
layer of the merged document. -/
def localizeMapRoot (lang : String) : Json → Json
  | .obj kvs => .obj (mapAtKey (mergeLocalized "map_root" lang kvs) "layers" (localizeArr lang))
  | other => other

end CrisisMap

namespace CrisisMap

/-- Dictionary lookup on a JSON value: `doc.get(key)` when the value is an
object, nothing otherwise. -/
def docGet : Json → String → Option Json
  | .obj kvs, key => getKey kvs key
  | _, _ => none

theorem localizeLayer_obj (lang : String) (kvs : List (String × Json)) :
    localizeLayer lang (.obj kvs) =
      .obj (mapAtKey (mergeLocalized "layer" lang kvs) "sublayers" (localizeArr lang)) := by
  rw [localizeLayer]
  congr 1
  rw [mapAtKey]
  refine Eq.trans (List.map_congr_left ?_) (List.attach_map_val _ _)
  rintro ⟨⟨k, v⟩, hmem⟩ -
  cases v with
  | arr xs =>
      simp only [localizeArr]
      split
      · rename_i hk
        simp only [hk, if_pos rfl]
        congr 2
        exact List.attach_map_val _ _
      · rename_i hk
        simp [hk]
  | null => simp [localizeArr]
  | bool b => simp [localizeArr]
  | num n => simp [localizeArr]
  | str s => simp [localizeArr]
  | obj o => simp [localizeArr]

/-- The concrete input document of the C4 claim. -/
def frDoc : Json :=
  .obj [("localized_map_roots", .arr [.obj
    [("language", .str "fr"),
     ("map_root", .obj [("title", .str "Bonjour")])]])]

/-- C4: LocalizeMapRoot with language "fr" on the document
`{"localized_map_roots": [{"language": "fr", "map_root": {"title": "Bonjour"}}]}`
produces a document whose title is "Bonjour" with no `localized_map_roots`
key left, and the same merge-and-strip step is applied recursively to every
layer and sublayer via their `localized_layers` arrays. -/
theorem localize_map_root_fr_and_recursive :
    localizeMapRoot "fr" frDoc = .obj [("title", .str "Bonjour")] ∧
    docGet (localizeMapRoot "fr" frDoc) "title" = some (.str "Bonjour") ∧
    docGet (localizeMapRoot "fr" frDoc) "localized_map_roots" = none ∧
    (∀ lang kvs, localizeMapRoot lang (.obj kvs) =
      .obj (mapAtKey (mergeLocalized "map_root" lang kvs) "layers" (localizeArr lang))) ∧
    (∀ lang kvs, localizeLayer lang (.obj kvs) =
      .obj (mapAtKey (mergeLocalized "layer" lang kvs) "sublayers" (localizeArr lang))) ∧
    (∀ lang xs, localizeArr lang (.arr xs) = .arr (xs.map (localizeLayer lang))) :=
  ⟨rfl, rfl, rfl, fun _ _ => rfl, fun lang kvs => localizeLayer_obj lang kvs,
   fun _ _ => rfl⟩

end CrisisMap

namespace CrisisMap

/-! ## Generic datastore tables

The App Engine datastore stores at most one entity per key; `entity.put()`
writes the entity at its key (replacing any previous entity there), and
`get_by_id` / `get_by_key_name` reads the entity at a key.  A table is an
association list with this put/lookup/delete discipline.
-/

def lookupTable {κ α : Type} [DecidableEq κ] : List (κ × α) → κ → Option α
  | [], _ => none
  | (k, v) :: rest, key => if k = key then some v else lookupTable rest key

def putTable {κ α : Type} [DecidableEq κ] : List (κ × α) → κ → α → List (κ × α)
  | [], k, v => [(k, v)]
  | (k1, v1) :: rest, k, v =>
      if k1 = k then (k, v) :: rest else (k1, v1) :: putTable rest k v

def delTable {κ α : Type} [DecidableEq κ] (t : List (κ × α)) (k : κ) : List (κ × α) :=
  t.filter (fun p => p.1 ≠ k)

theorem lookupTable_mem {κ α : Type} [DecidableEq κ] {t : List (κ × α)} {k : κ} {v : α}
    (h : lookupTable t k = some v) : (k, v) ∈ t := by
  induction t with
  | nil => simp [lookupTable] at h
  | cons p rest ih =>
      simp only [lookupTable] at h
      split at h
      · rename_i heq
        cases h
        exact heq ▸ List.mem_cons_self _ _
      · exact List.mem_cons_of_mem _ (ih h)

theorem mem_putTable {κ α : Type} [DecidableEq κ] {t : List (κ × α)} {k : κ} {v : α}
    {q : κ × α} (h : q ∈ putTable t k v) : q ∈ t ∨ q = (k, v) := by
  induction t with
  | nil =>
      simp only [putTable, List.mem_singleton] at h
      exact Or.inr h
  | cons p rest ih =>
      simp only [putTable] at h
      split at h
      · rcases List.mem_cons.1 h with h1 | h1
        · exact Or.inr h1
        · exact Or.inl (List.mem_cons_of_mem _ h1)
      · rcases List.mem_cons.1 h with h1 | h1
        · exact Or.inl (h1 ▸ List.mem_cons_self _ _)
        · rcases ih h1 with h2 | h2
          · exact Or.inl (List.mem_cons_of_mem _ h2)
          · exact Or.inr h2

theorem lookupTable_putTable {κ α : Type} [DecidableEq κ] (t : List (κ × α)) (k : κ)
    (v : α) (k2 : κ) :
    lookupTable (putTable t k v) k2 = if k = k2 then some v else lookupTable t k2 := by
  induction t with
  | nil => simp [putTable, lookupTable]
  | cons p rest ih =>
      obtain ⟨k1, v1⟩ := p
      by_cases h1 : k1 = k
      · subst h1
        by_cases h2 : k1 = k2
        · subst h2
          simp [putTable, lookupTable]
        · simp [putTable, lookupTable, h2]
      · by_cases h2 : k1 = k2
        · subst h2
          simp [putTable, lookupTable, h1, Ne.symm h1]
        · simp [putTable, lookupTable, h1, h2, ih]

theorem lookupTable_eq_none_iff {κ α : Type} [DecidableEq κ] {t : List (κ × α)} {k : κ} :
    lookupTable t k = none ↔ k ∉ t.map Prod.fst := by
  induction t with
  | nil => simp [lookupTable]
  | cons p rest ih =>
      obtain ⟨k1, v1⟩ := p
      by_cases h1 : k1 = k
      · subst h1
        simp [lookupTable]
      · simp [lookupTable, h1, ih, Ne.symm h1]

theorem length_putTable {κ α : Type} [DecidableEq κ] (t : List (κ × α)) (k : κ) (v : α) :
    (putTable t k v).length =
      if (lookupTable t k).isSome then t.length else t.length + 1 := by
  induction t with
  | nil => simp [putTable, lookupTable]
  | cons p rest ih =>
      obtain ⟨k1, v1⟩ := p
      by_cases h1 : k1 = k
      · subst h1
        simp [putTable, lookupTable]
      · have hl : lookupTable ((k1, v1) :: rest) k = lookupTable rest k := by
          simp [lookupTable, h1]
        simp only [putTable, if_neg h1, List.length_cons, ih, hl]
        split <;> rfl

theorem keys_putTable {κ α : Type} [DecidableEq κ] (t : List (κ × α)) (k : κ) (v : α) :
    (putTable t k v).map Prod.fst =
      if (lookupTable t k).isSome then t.map Prod.fst else t.map Prod.fst ++ [k] := by
  induction t with
  | nil => simp [putTable, lookupTable]
  | cons p rest ih =>
      obtain ⟨k1, v1⟩ := p
      by_cases h1 : k1 = k
      · subst h1
        simp [putTable, lookupTable]
      · have hl : lookupTable ((k1, v1) :: rest) k = lookupTable rest k := by
          simp [lookupTable, h1]
        simp only [putTable, if_neg h1, List.map_cons, ih, hl]
        split <;> rfl

theorem nodup_keys_putTable {κ α : Type} [DecidableEq κ] {t : List (κ × α)} (k : κ) (v : α)
    (h : (t.map Prod.fst).Nodup) : ((putTable t k v).map Prod.fst).Nodup := by
  rw [keys_putTable]
  split
  · exact h
  · rename_i hs
    have hk : k ∉ t.map Prod.fst := by
      rw [← lookupTable_eq_none_iff]
      cases hl : lookupTable t k
      · rfl
      · rw [hl] at hs; simp at hs
    simp [List.nodup_append, h, hk]

end CrisisMap

namespace CrisisMap

/-! ## Crowd reports and crowd votes (model.py lines 870-1346)

Vote types carry a weight: anonymous votes weigh 1, reviewer votes 1000.
A `_CrowdVoteModel` entity is stored under the id `report_id + '\x00' + voter`
and a null `vote_type` represents a retracted vote.
-/

inductive VoteType where
  | ANONYMOUS_UP : VoteType
  | ANONYMOUS_DOWN : VoteType
  | REVIEWER_UP : VoteType
  | REVIEWER_DOWN : VoteType
  deriving DecidableEq, Repr

/-- Embeds _CrowdVoteModel: report id, voter, and optional vote type. -/
structure VoteRec where
  report_id : String
  voter : String
  vote_type : Option VoteType
  deriving DecidableEq, Repr

/-- Embeds the vote-derived fields of _CrowdReportModel (the score is an
integer in the Python arithmetic; the datastore stores it as a float, which
is exact for these magnitudes). -/
structure ReportRec where
  upvote_count : Int := 0
  downvote_count : Int := 0
  score : Int := 0
  hidden : Bool := false
  reviewed : Bool := false
  deriving DecidableEq, Repr

/-- Datastore state for the crowd-report subsystem: the vote table is keyed
by the entity id `report_id + '\x00' + voter`, the report table by report id. -/
structure CrowdState where
  votes : List (String × VoteRec)
  reports : List (String × ReportRec)

/-- Entity id of a vote: `report_id + '\x00' + voter`. -/
def voteKey (rid voter : String) : String := rid ++ "\x00" ++ voter

theorem voteKey_inj_voter {rid a b : String} (h : voteKey rid a = voteKey rid b) :
    a = b := by
  unfold voteKey at h
  have hd := congrArg String.data h
  simp only [String.data_append, List.append_assoc] at hd
  exact String.ext (List.append_cancel_left (List.append_cancel_left hd))

/-- Embeds the datastore count query inside CountVotes (model.py 1248-1251):
the number of stored votes on `rid` with the given type. -/
def countVotes (votes : List (String × VoteRec)) (rid : String) (t : VoteType) : Nat :=
  votes.countP (fun p => decide (p.2.report_id = rid ∧ p.2.vote_type = some t))

/-- Tests `old_vote and old_vote.vote_type == vote_type` (model.py 1253). -/
def oldHasType (old : Option VoteRec) (t : VoteType) : Bool :=
  match old with
  | some o => o.vote_type = some t
  | none => false

/-- Embeds CountVotes (model.py 1248-1253): the stored count adjusted by the
vote about to be written (+1 if the incoming vote has this type) and the vote
about to be replaced (−1 if the replaced vote had this type). -/
def adjCountVotes (votes : List (String × VoteRec)) (rid : String)
    (old : Option VoteRec) (neu : Option VoteType) (t : VoteType) : Int :=
  (countVotes votes rid t : Int) + (if neu = some t then 1 else 0)
    - (if oldHasType old t then 1 else 0)

/-- Embeds CrowdReport.PutScoreForReport (model.py 1267-1280): writes the
voting stats on the report if it exists (`if model:`), else does nothing. -/
def putScoreForReport (reports : List (String × ReportRec)) (rid : String)
    (u d score : Int) (hidden : Bool) : List (String × ReportRec) :=
  match lookupTable reports rid with
  | some r =>
      putTable reports rid
        { r with upvote_count := u, downvote_count := d, score := score, hidden := hidden }
  | none => reports

/-- Embeds CrowdReport.UpdateScore (model.py 1222-1265): count each vote type
with the one-vote adjustment, combine into the weighted score, and store the
stats; a report is hidden exactly when its score is at most −2. -/
def updateScore (reports : List (String × ReportRec)) (votes : List (String × VoteRec))
    (rid : String) (old : Option VoteRec) (neu : Option VoteType) :
    List (String × ReportRec) :=
  let up := adjCountVotes votes rid old neu .ANONYMOUS_UP
  let down := adjCountVotes votes rid old neu .ANONYMOUS_DOWN
  let rup := adjCountVotes votes rid old neu .REVIEWER_UP
  let rdown := adjCountVotes votes rid old neu .REVIEWER_DOWN
  let score := up - down + 1000 * (rup - rdown)
  putScoreForReport reports rid (up + rup) (down + rdown) score (decide (score ≤ -2))

/-- Embeds CrowdVote.Get (model.py 1308-1318). -/
def crowdVoteGet (votes : List (String × VoteRec)) (rid voter : String) : Option VoteRec :=
  lookupTable votes (voteKey rid voter)

/-- Embeds CrowdVote.Put (model.py 1334-1346): read the old vote, update the
report's score from the pre-write vote table, then write the new vote record
at the key `report_id + '\x00' + voter`. -/
def crowdVotePut (s : CrowdState) (rid voter : String) (vt : Option VoteType) :
    CrowdState :=
  let old := crowdVoteGet s.votes rid voter
  { reports := updateScore s.reports s.votes rid old vt,
    votes := putTable s.votes (voteKey rid voter) ⟨rid, voter, vt⟩ }

/-- Weighted score formula over a vote table: ordinary votes weigh 1 and
reviewer votes weigh 1000. -/
def scoreFormula (votes : List (String × VoteRec)) (rid : String) : Int :=
  ((countVotes votes rid .ANONYMOUS_UP : Int) - countVotes votes rid .ANONYMOUS_DOWN)
    + 1000 * ((countVotes votes rid .REVIEWER_UP : Int) - countVotes votes rid .REVIEWER_DOWN)

/-- A sequence of votes on report `rid`, applied through CrowdVote.Put. -/
def applyVotes (rid : String) (ops : List (String × Option VoteType)) (s : CrowdState) :
    CrowdState :=
  ops.foldl (fun s op => crowdVotePut s rid op.1 op.2) s

/-- State just after report `rid` is created: no votes, default stats. -/
def initCrowd (rid : String) : CrowdState :=
  { votes := [], reports := [(rid, {})] }

/-- Well-formedness of the vote table for report `rid`: every record is keyed
by its (report, voter) pair and belongs to this report. -/
def votesWf (rid : String) (votes : List (String × VoteRec)) : Prop :=
  ∀ p ∈ votes, p.1 = voteKey rid p.2.voter ∧ p.2.report_id = rid

end CrisisMap

namespace CrisisMap

/-- Indicator used to relate a stored vote record to a (report, type) tally. -/
def voteInd (rid : String) (t : VoteType) : Option VoteRec → Nat
  | some o => if o.report_id = rid ∧ o.vote_type = some t then 1 else 0
  | none => 0

theorem countVotes_putTable (votes : List (String × VoteRec)) (key : String)
    (rec : VoteRec) (rid : String) (t : VoteType) :
    countVotes (putTable votes key rec) rid t + voteInd rid t (lookupTable votes key)
      = countVotes votes rid t + voteInd rid t (some rec) := by
  induction votes with
  | nil =>
      simp only [putTable, lookupTable, countVotes, List.countP_cons, List.countP_nil,
        voteInd, decide_eq_true_eq]
      omega
  | cons p rest ih =>
      obtain ⟨k1, v1⟩ := p
      by_cases h1 : k1 = key
      · subst h1
        have hput : putTable ((k1, v1) :: rest) k1 rec = (k1, rec) :: rest := by
          simp [putTable]
        have hlook : lookupTable ((k1, v1) :: rest) k1 = some v1 := by
          simp [lookupTable]
        rw [hput, hlook]
        simp only [countVotes, List.countP_cons, voteInd, decide_eq_true_eq]
        omega
      · have hput : putTable ((k1, v1) :: rest) key rec
            = (k1, v1) :: putTable rest key rec := by
          simp [putTable, h1]
        have hlook : lookupTable ((k1, v1) :: rest) key = lookupTable rest key := by
          simp [lookupTable, h1]
        rw [hput, hlook]
        simp only [countVotes, List.countP_cons, decide_eq_true_eq] at ih ⊢
        omega

theorem voteInd_new (rid voter : String) (vt : Option VoteType) (t : VoteType) :
    voteInd rid t (some ⟨rid, voter, vt⟩) = if vt = some t then 1 else 0 := by
  simp [voteInd]

theorem adjCount_eq_post (votes : List (String × VoteRec)) (rid voter : String)
    (vt : Option VoteType) (hwf : votesWf rid votes) (t : VoteType) :
    adjCountVotes votes rid (lookupTable votes (voteKey rid voter)) vt t
      = (countVotes (putTable votes (voteKey rid voter) ⟨rid, voter, vt⟩) rid t : Int) := by
  have hmain := countVotes_putTable votes (voteKey rid voter) ⟨rid, voter, vt⟩ rid t
  unfold adjCountVotes
  have hnew : (if vt = some t then (1 : Int) else 0)
      = ((if vt = some t then 1 else 0 : Nat) : Int) := by split <;> simp
  have holdeq : (if oldHasType (lookupTable votes (voteKey rid voter)) t
        then (1 : Int) else 0)
      = ((voteInd rid t (lookupTable votes (voteKey rid voter)) : Nat) : Int) := by
    cases hold : lookupTable votes (voteKey rid voter) with
    | none => simp [voteInd, oldHasType]
    | some o =>
        have hrid : o.report_id = rid := (hwf _ (lookupTable_mem hold)).2
        simp only [voteInd, oldHasType, hrid, true_and, decide_eq_true_eq]
        split <;> simp_all
  rw [hnew, holdeq, ← voteInd_new rid voter vt t]
  omega

theorem putScoreForReport_lookup {reports : List (String × ReportRec)} {rid : String}
    {r0 : ReportRec} (hl : lookupTable reports rid = some r0)
    (u d score : Int) (hidden : Bool) :
    lookupTable (putScoreForReport reports rid u d score hidden) rid
      = some { r0 with upvote_count := u, downvote_count := d,
                       score := score, hidden := hidden } := by
  simp only [putScoreForReport, hl]
  rw [lookupTable_putTable, if_pos rfl]

theorem crowdVotePut_step (s : CrowdState) (rid voter : String) (vt : Option VoteType)
    (hwf : votesWf rid s.votes) {r0 : ReportRec}
    (hl : lookupTable s.reports rid = some r0) :
    votesWf rid (crowdVotePut s rid voter vt).votes ∧
    ∃ r, lookupTable (crowdVotePut s rid voter vt).reports rid = some r ∧
      r.score = scoreFormula (crowdVotePut s rid voter vt).votes rid ∧
      r.hidden = decide (r.score ≤ -2) := by
  constructor
  · intro p hp
    rcases mem_putTable hp with h1 | h1
    · exact hwf p h1
    · subst h1; exact ⟨rfl, rfl⟩
  · refine ⟨{ r0 with
        upvote_count :=
          adjCountVotes s.votes rid (crowdVoteGet s.votes rid voter) vt .ANONYMOUS_UP
          + adjCountVotes s.votes rid (crowdVoteGet s.votes rid voter) vt .REVIEWER_UP,
        downvote_count :=
          adjCountVotes s.votes rid (crowdVoteGet s.votes rid voter) vt .ANONYMOUS_DOWN
          + adjCountVotes s.votes rid (crowdVoteGet s.votes rid voter) vt .REVIEWER_DOWN,
        score :=
          adjCountVotes s.votes rid (crowdVoteGet s.votes rid voter) vt .ANONYMOUS_UP
          - adjCountVotes s.votes rid (crowdVoteGet s.votes rid voter) vt .ANONYMOUS_DOWN
          + 1000 * (adjCountVotes s.votes rid (crowdVoteGet s.votes rid voter) vt .REVIEWER_UP
            - adjCountVotes s.votes rid (crowdVoteGet s.votes rid voter) vt .REVIEWER_DOWN),
        hidden := decide
          (adjCountVotes s.votes rid (crowdVoteGet s.votes rid voter) vt .ANONYMOUS_UP
          - adjCountVotes s.votes rid (crowdVoteGet s.votes rid voter) vt .ANONYMOUS_DOWN
          + 1000 * (adjCountVotes s.votes rid (crowdVoteGet s.votes rid voter) vt .REVIEWER_UP
            - adjCountVotes s.votes rid (crowdVoteGet s.votes rid voter) vt .REVIEWER_DOWN)
          ≤ -2) }, ?_, ?_, rfl⟩
    · show lookupTable (updateScore s.reports s.votes rid
          (crowdVoteGet s.votes rid voter) vt) rid = _
      simp only [updateScore]
      exact putScoreForReport_lookup hl _ _ _ _
    · show adjCountVotes s.votes rid (crowdVoteGet s.votes rid voter) vt .ANONYMOUS_UP
          - adjCountVotes s.votes rid (crowdVoteGet s.votes rid voter) vt .ANONYMOUS_DOWN
          + 1000 * (adjCountVotes s.votes rid (crowdVoteGet s.votes rid voter) vt .REVIEWER_UP
            - adjCountVotes s.votes rid (crowdVoteGet s.votes rid voter) vt .REVIEWER_DOWN)
          = scoreFormula (crowdVotePut s rid voter vt).votes rid
      simp only [crowdVoteGet, crowdVotePut]
      rw [adjCount_eq_post s.votes rid voter vt hwf .ANONYMOUS_UP,
        adjCount_eq_post s.votes rid voter vt hwf .ANONYMOUS_DOWN,
        adjCount_eq_post s.votes rid voter vt hwf .REVIEWER_UP,
        adjCount_eq_post s.votes rid voter vt hwf .REVIEWER_DOWN,
        scoreFormula]

theorem applyVotes_invariant (rid : String) (ops : List (String × Option VoteType)) :
    ∀ s : CrowdState, votesWf rid s.votes →
      (∃ r0, lookupTable s.reports rid = some r0 ∧
        r0.score = scoreFormula s.votes rid ∧ r0.hidden = decide (r0.score ≤ -2)) →
      votesWf rid (applyVotes rid ops s).votes ∧
      ∃ r, lookupTable (applyVotes rid ops s).reports rid = some r ∧
        r.score = scoreFormula (applyVotes rid ops s).votes rid ∧
        r.hidden = decide (r.score ≤ -2) := by
  induction ops with
  | nil => exact fun s hwf hrep => ⟨hwf, hrep⟩
  | cons op rest ih =>
      intro s hwf hrep
      obtain ⟨r0, hl, _, _⟩ := hrep
      obtain ⟨hwf1, hrep1⟩ := crowdVotePut_step s rid op.1 op.2 hwf hl
      have step : applyVotes rid (op :: rest) s
          = applyVotes rid rest (crowdVotePut s rid op.1 op.2) := rfl
      rw [step]
      exact ih _ hwf1 hrep1

/-- Latest vote type cast by `voter` in a sequence of votes, if any. -/
def lastVoteOf : List (String × Option VoteType) → String → Option (Option VoteType)
  | [], _ => none
  | (v, t) :: rest, voter =>
      match lastVoteOf rest voter with
      | some r => some r
      | none => if v = voter then some t else none

theorem applyVotes_lastVote (rid : String) (ops : List (String × Option VoteType)) :
    ∀ (s : CrowdState) (voter : String),
      crowdVoteGet (applyVotes rid ops s).votes rid voter =
        match lastVoteOf ops voter with
        | some vt => some ⟨rid, voter, vt⟩
        | none => crowdVoteGet s.votes rid voter := by
  induction ops with
  | nil => intro s voter; rfl
  | cons op rest ih =>
      intro s voter
      obtain ⟨v, t⟩ := op
      have step : applyVotes rid ((v, t) :: rest) s
          = applyVotes rid rest (crowdVotePut s rid v t) := rfl
      rw [step, ih]
      cases hlv : lastVoteOf rest voter with
      | some r => simp [lastVoteOf, hlv]
      | none =>
          simp only [lastVoteOf, hlv]
          by_cases hv : v = voter
          · subst hv
            simp [crowdVoteGet, crowdVotePut, lookupTable_putTable]
          · have hk : voteKey rid v ≠ voteKey rid voter :=
              fun h => hv (voteKey_inj_voter h)
            simp [crowdVoteGet, crowdVotePut, lookupTable_putTable, hk, hv]

/-- C1: for every crowd report and every sequence of votes applied to it via
CrowdVote.Put, the stored score equals
(upvotes − downvotes) + 1000 × (reviewer upvotes − reviewer downvotes),
counting one vote of the voter's latest vote type per (report, voter), and
the stored hidden flag is true exactly when that score is ≤ −2. -/
theorem crowd_report_score_formula (rid : String)
    (ops : List (String × Option VoteType)) :
    (∃ r, lookupTable (applyVotes rid ops (initCrowd rid)).reports rid = some r ∧
      r.score = scoreFormula (applyVotes rid ops (initCrowd rid)).votes rid ∧
      r.hidden = decide (r.score ≤ -2)) ∧
    ∀ voter, crowdVoteGet (applyVotes rid ops (initCrowd rid)).votes rid voter =
      (lastVoteOf ops voter).map (fun vt => ⟨rid, voter, vt⟩) := by
  constructor
  · refine (applyVotes_invariant rid ops (initCrowd rid) ?_ ?_).2
    · intro p hp; simp [initCrowd] at hp
    · refine ⟨{}, ?_, ?_, rfl⟩
      · simp [initCrowd, lookupTable]
      · simp [initCrowd, scoreFormula, countVotes]
  · intro voter
    rw [applyVotes_lastVote]
    cases hlv : lastVoteOf ops voter with
    | some r => simp
    | none => simp [initCrowd, crowdVoteGet, lookupTable]

end CrisisMap

namespace CrisisMap

/-- Number of stored vote records for one (report, voter) pair. -/
def pairCount (votes : List (String × VoteRec)) (rid voter : String) : Nat :=
  votes.countP (fun p => decide (p.2.report_id = rid ∧ p.2.voter = voter))

/-- Well-formedness of the whole vote table: every record is stored under the
entity id derived from its own (report, voter) pair, and entity ids are
unique (the datastore keeps one entity per id). -/
def votesKeyed (votes : List (String × VoteRec)) : Prop :=
  (∀ p ∈ votes, p.1 = voteKey p.2.report_id p.2.voter) ∧ (votes.map Prod.fst).Nodup

theorem pairCount_le_one (rid voter : String) :
    ∀ votes : List (String × VoteRec),
      (∀ p ∈ votes, p.1 = voteKey p.2.report_id p.2.voter) →
      (votes.map Prod.fst).Nodup → pairCount votes rid voter ≤ 1 := by
  intro votes
  induction votes with
  | nil => intro _ _; simp [pairCount]
  | cons p rest ih =>
      intro hkey hnd
      simp only [List.map_cons, List.nodup_cons] at hnd
      rw [pairCount, List.countP_cons]
      by_cases hm : p.2.report_id = rid ∧ p.2.voter = voter
      · have hz : rest.countP
            (fun q => decide (q.2.report_id = rid ∧ q.2.voter = voter)) = 0 := by
          rw [List.countP_eq_zero]
          intro q hq hdq
          rw [decide_eq_true_eq] at hdq
          have hq1 : q.1 = voteKey rid voter := by
            rw [hkey q (List.mem_cons_of_mem _ hq), hdq.1, hdq.2]
          have hp1 : p.1 = voteKey rid voter := by
            rw [hkey p (List.mem_cons_self _ _), hm.1, hm.2]
          exact hnd.1 (by rw [hp1, ← hq1]; exact List.mem_map_of_mem Prod.fst hq)
        rw [hz]
        split <;> omega
      · have := ih (fun q hq => hkey q (List.mem_cons_of_mem _ hq)) hnd.2
        unfold pairCount at this
        split
        · rename_i hcond
          rw [decide_eq_true_eq] at hcond
          exact absurd hcond hm
        · omega

/-- C2: at most one vote record exists per (report, voter); a second vote by
the same voter on the same report replaces the prior record instead of
adding one, and a retraction (null vote type) keeps the record with no
weight instead of deleting it. -/
theorem crowd_vote_unique_per_pair (s : CrowdState) (hw : votesKeyed s.votes)
    (rid voter : String) (vt : Option VoteType) :
    pairCount s.votes rid voter ≤ 1 ∧
    votesKeyed (crowdVotePut s rid voter vt).votes ∧
    ((crowdVoteGet s.votes rid voter).isSome →
      (crowdVotePut s rid voter vt).votes.length = s.votes.length) ∧
    crowdVoteGet (crowdVotePut s rid voter none).votes rid voter
      = some ⟨rid, voter, none⟩ := by
  obtain ⟨hkey, hnd⟩ := hw
  refine ⟨pairCount_le_one rid voter s.votes hkey hnd, ⟨?_, ?_⟩, ?_, ?_⟩
  · intro p hp
    rcases mem_putTable hp with h1 | h1
    · exact hkey p h1
    · subst h1; rfl
  · exact nodup_keys_putTable _ _ hnd
  · intro hsome
    have hsome2 : (lookupTable s.votes (voteKey rid voter)).isSome = true := hsome
    show (putTable s.votes (voteKey rid voter) _).length = _
    rw [length_putTable, if_pos hsome2]
  · show lookupTable (putTable s.votes (voteKey rid voter) ⟨rid, voter, none⟩)
        (voteKey rid voter) = _
    rw [lookupTable_putTable, if_pos rfl]

/-- A concrete one-vote state used as the witness input. -/
def demoCrowd : CrowdState :=
  { votes := [(voteKey "r" "u", ⟨"r", "u", some .ANONYMOUS_UP⟩)],
    reports := [("r", {})] }

theorem crowd_vote_unique_per_pair_witness :
    votesKeyed demoCrowd.votes ∧
    (pairCount demoCrowd.votes "r" "u" ≤ 1 ∧
     votesKeyed (crowdVotePut demoCrowd "r" "u" (some .ANONYMOUS_DOWN)).votes ∧
     ((crowdVoteGet demoCrowd.votes "r" "u").isSome →
       (crowdVotePut demoCrowd "r" "u" (some .ANONYMOUS_DOWN)).votes.length
         = demoCrowd.votes.length) ∧
     crowdVoteGet (crowdVotePut demoCrowd "r" "u" none).votes "r" "u"
       = some ⟨"r", "u", none⟩) :=
  ⟨by unfold votesKeyed; decide,
   crowd_vote_unique_per_pair demoCrowd (by unfold votesKeyed; decide) "r" "u"
    (some .ANONYMOUS_DOWN)⟩

/-- C3: CrowdVote.Put recomputes the report score from the pre-write vote
table (UpdateScore runs before the vote is written), and for every vote type
the count UpdateScore uses equals the stored tally adjusted by +1 if the
incoming vote has that type and −1 if the replaced vote had that type — a
change of at most one vote relative to the pre-write tally. -/
theorem update_score_before_write_adjusts_by_one (s : CrowdState)
    (rid voter : String) (vt : Option VoteType) :
    (crowdVotePut s rid voter vt).reports
      = updateScore s.reports s.votes rid (crowdVoteGet s.votes rid voter) vt ∧
    (∀ old t, adjCountVotes s.votes rid old vt t
        = (countVotes s.votes rid t : Int) + (if vt = some t then 1 else 0)
          - (if oldHasType old t then 1 else 0)) ∧
    (∀ old t,
      (adjCountVotes s.votes rid old vt t - (countVotes s.votes rid t : Int)).natAbs
        ≤ 1) := by
  refine ⟨rfl, fun old t => rfl, fun old t => ?_⟩
  unfold adjCountVotes
  split <;> split <;> omega

end CrisisMap

namespace CrisisMap

/-! ## Maps, map versions and catalog entries (model.py)

The permission engine (perms.py) and the domain registry (domains.py) are
external collaborators of model.py and are not part of src/; their checks are
abstracted by `PermCtx`, a record of which roles the current user holds for
the target of the call.  Timestamps are `Nat` with 0 for the NEVER sentinel.
-/

/-- Modelled from the spec: the role names of the permission engine
(owner/editor/reviewer/viewer per map, plus admin and domain-scoped roles);
perms.py is not part of src/. -/
inductive Role where
  | MAP_VIEWER : Role
  | MAP_REVIEWER : Role
  | MAP_EDITOR : Role
  | MAP_OWNER : Role
  | ADMIN : Role
  | MAP_CREATOR : Role
  | CATALOG_EDITOR : Role
  | NONE : Role
  deriving DecidableEq, Repr

/-- Modelled from the spec: the permission engine as seen by model.py —
`allows role` says whether the current user holds `role` for the target of
the call; perms.AssertAccess raises an authorization error exactly when the
check fails. -/
structure PermCtx where
  allows : Role → Bool

/-- Error taxonomy of the model layer: read-only violations on placeholder
entities (a TypeError in the source), authorization failures from the
permission engine, and value errors for invalid input. -/
inductive OpError where
  | readOnly : String → OpError
  | authorization : OpError
  | valueError : String → OpError
  deriving DecidableEq, Repr

/-- Datastore key of a MapVersionModel: parent map id plus version id. -/
structure VersionKey where
  map_id : String
  version_id : Nat
  deriving DecidableEq, Repr

/-- Embeds MapVersionModel (model.py 68-85): immutable JSON snapshot. -/
structure MapVersionS where
  maproot : List (String × Json)
  created : Nat := 0
  creator_uid : String := ""

/-- Embeds MapModel (model.py 88-145).  String-valued title/description are
taken from the MapRoot (non-string values would be rejected by the datastore
string property). -/
structure MapModelS where
  key_name : String
  title : String := ""
  description : String := ""
  updated : Nat := 0
  updater_uid : String := ""
  deleted : Nat := 0
  deleter_uid : Option String := none
  blocked : Nat := 0
  blocker_uid : Option String := none
  owners : List String := []
  editors : List String := []
  reviewers : List String := []
  viewers : List String := []
  domain : String := "gmail.com"
  world_readable : Bool := false
  current_version : Option VersionKey := none
  deriving DecidableEq, Repr

/-- Embeds CatalogEntryModel (model.py 148-193): keyed by domain:label, a
pointer to one map version plus denormalized metadata. -/
structure CatalogEntryS where
  domain : String
  label : String
  created : Nat := 0
  creator_uid : String := ""
  updated : Nat := 0
  updater_uid : String := ""
  title : String := ""
  publisher_name : String := ""
  map_id : String := ""
  map_version : Option VersionKey := none
  is_listed : Bool := false
  deriving DecidableEq, Repr

/-- The datastore tables used by the map/catalog subsystem. -/
structure Datastore where
  maps : List (String × MapModelS)
  versions : List (VersionKey × MapVersionS)
  entries : List (String × CatalogEntryS)

/-- An access-control wrapper around a MapModel (the Map class); the
`isEmptyStandIn` flag marks the EmptyMap subclass, whose overridden methods
raise a read-only error. -/
structure MapObj where
  model : MapModelS
  isEmptyStandIn : Bool := false

/-- Embeds the EmptyMap constructor (model.py 825-829). -/
def emptyMapModel : MapModelS :=
  { key_name := "0", owners := [], editors := [], reviewers := [], viewers := [],
    domain := "gmail.com", world_readable := true,
    title := "Empty map", description := "This is an empty map for testing." }

def emptyMap : MapObj := { model := emptyMapModel, isEmptyStandIn := true }

/-- Wrapper around a CatalogEntryModel (the CatalogEntry class); the flag
marks the EmptyCatalogEntry subclass. -/
structure CatalogEntryObj where
  model : CatalogEntryS
  isEmptyStandIn : Bool := false

/-- Embeds the EmptyCatalogEntry constructor (model.py 857-859). -/
def emptyCatalogEntry (domain : String) : CatalogEntryObj :=
  { model := { domain := domain, label := "empty", title := "Empty map", map_id := "0" },
    isEmptyStandIn := true }

/-- Embeds Map.Get (model.py 538-555): the reserved ID '0' resolves to the
EmptyMap before any datastore access; otherwise a non-deleted map is
returned after a MAP_VIEWER access check, and a missing or deleted map
yields None. -/
def mapGet (ds : Datastore) (pc : PermCtx) (key_name : String) :
    Except OpError (Option MapObj) :=
  if key_name = "0" then .ok (some emptyMap)
  else
    match lookupTable ds.maps key_name with
    | some m =>
        if m.deleted = 0 then
          if pc.allows .MAP_VIEWER then .ok (some { model := m })
          else .error .authorization
        else .ok none
    | none => .ok none

/-- Embeds CatalogEntry.Get (model.py 247-260): the reserved label 'empty'
resolves to the EmptyCatalogEntry of the domain before any datastore access
(the read-through cache layer is elided: it calls the same datastore
lookup). -/
def catalogEntryGet (ds : Datastore) (domain label : String) : Option CatalogEntryObj :=
  if label = "empty" then some (emptyCatalogEntry domain)
  else (lookupTable ds.entries (domain ++ ":" ++ label)).map (fun m => { model := m })

/-- Smallest unused version id for a map (the datastore allocates ids unique
within the parent entity). -/
def freshVersionId (ds : Datastore) (map_id : String) : Nat :=
  (ds.versions.filter (fun p => p.1.map_id == map_id)).foldl
    (fun acc p => max acc p.1.version_id) 0 + 1

/-- String content of an optional JSON value, as MapModel's string
properties store it (`map_root.get('title', '')`). -/
def jsonStr : Option Json → String
  | some (.str s) => s
  | _ => ""

/-- Embeds Map.PutNewVersion (model.py 654-675): EmptyMap raises a read-only
error (model.py 846); otherwise requires MAP_EDITOR, stamps the MapRoot id,
writes the new version and updates the map's denormalized title/description
and current-version pointer in one transaction.  Returns the version id. -/
def mapPutNewVersion (pc : PermCtx) (now : Nat) (uid : String) (ds : Datastore)
    (m : MapObj) (map_root : List (String × Json)) : Except OpError (Datastore × Nat) :=
  if m.isEmptyStandIn then .error (.readOnly "EmptyMap is read-only")
  else if ¬ pc.allows .MAP_EDITOR then .error .authorization
  else
    let root := setKeyObj map_root "id" (.str m.model.key_name)
    let vid := freshVersionId ds m.model.key_name
    let vkey : VersionKey := ⟨m.model.key_name, vid⟩
    let newm :=
      { m.model with
        title := jsonStr (getKey root "title"),
        description := jsonStr (getKey root "description"),
        updated := now, updater_uid := uid,
        current_version := some vkey }
    .ok ({ ds with
           versions := putTable ds.versions vkey ⟨root, now, uid⟩,
           maps := putTable ds.maps m.model.key_name newm }, vid)

/-- Embeds CatalogEntry.DeleteByMapId (model.py 377-385): removes every
catalog entry pointing at the map, in every domain. -/
def deleteByMapId (entries : List (String × CatalogEntryS)) (map_id : String) :
    List (String × CatalogEntryS) :=
  entries.filter (fun p => p.2.map_id ≠ map_id)

/-- Embeds Map.Delete (model.py 694-703): EmptyMap raises a read-only error
(model.py 847); otherwise requires MAP_OWNER, marks the map deleted with the
current time (a non-NEVER sentinel), removes the catalog entries that
reference it, and stores the map (still present, soft-deleted). -/
def mapDelete (pc : PermCtx) (now : Nat) (uid : String) (ds : Datastore) (m : MapObj) :
    Except OpError Datastore :=
  if m.isEmptyStandIn then .error (.readOnly "EmptyMap is read-only")
  else if ¬ pc.allows .MAP_OWNER then .error .authorization
  else
    .ok { ds with
          entries := deleteByMapId ds.entries m.model.key_name,
          maps := putTable ds.maps m.model.key_name
            { m.model with deleted := now, deleter_uid := some uid } }

/-- Embeds Map.Undelete (model.py 705-713): requires ADMIN, clears the
deleted sentinel and stores the map.  EmptyMap does NOT override this
method, so it applies to the placeholder as well. -/
def mapUndelete (pc : PermCtx) (uid : String) (ds : Datastore) (m : MapObj) :
    Except OpError Datastore :=
  if ¬ pc.allows .ADMIN then .error .authorization
  else
    .ok { ds with
          maps := putTable ds.maps m.model.key_name
            { m.model with deleted := 0, deleter_uid := none } }

/-- Embeds Map.SetWorldReadable (model.py 761-765); overridden to a
read-only error on EmptyMap (model.py 845). -/
def mapSetWorldReadable (pc : PermCtx) (ds : Datastore) (m : MapObj) (wr : Bool) :
    Except OpError Datastore :=
  if m.isEmptyStandIn then .error (.readOnly "EmptyMap is read-only")
  else if ¬ pc.allows .MAP_OWNER then .error .authorization
  else .ok { ds with
             maps := putTable ds.maps m.model.key_name
               { m.model with world_readable := wr } }

/-- Embeds the list mutations of Map.RevokePermission (model.py 767-780):
the viewer case is an independent `if`, the reviewer/editor/owner cases an
`elif` chain; `list.remove` drops the first occurrence. -/
def revokeLists (role : Role) (uid : String) (m : MapModelS) : MapModelS :=
  let m1 := if role = .MAP_VIEWER ∧ uid ∈ m.viewers
            then { m with viewers := m.viewers.erase uid } else m
  if role = .MAP_REVIEWER ∧ uid ∈ m1.reviewers then
    { m1 with reviewers := m1.reviewers.erase uid }
  else if role = .MAP_EDITOR ∧ uid ∈ m1.editors then
    { m1 with editors := m1.editors.erase uid }
  else if role = .MAP_OWNER ∧ uid ∈ m1.owners then
    { m1 with owners := m1.owners.erase uid }
  else m1

/-- Embeds Map.RevokePermission as a datastore operation; overridden to a
read-only error on EmptyMap (model.py 848). -/
def mapRevokePermission (pc : PermCtx) (ds : Datastore) (m : MapObj) (role : Role)
    (uid : String) : Except OpError Datastore :=
  if m.isEmptyStandIn then .error (.readOnly "EmptyMap is read-only")
  else if ¬ pc.allows .MAP_OWNER then .error .authorization
  else .ok { ds with
             maps := putTable ds.maps m.model.key_name
               (revokeLists role uid m.model) }

/-- Embeds the list mutations of Map.ChangePermissionLevel (model.py
788-804) for a role among the four map roles: append the user to the target
list if absent, then revoke every other of the four roles in list order. -/
def changeLists (role : Role) (uid : String) (m : MapModelS) : MapModelS :=
  let m1 :=
    if role = .MAP_VIEWER ∧ uid ∉ m.viewers then
      { m with viewers := m.viewers ++ [uid] }
    else if role = .MAP_REVIEWER ∧ uid ∉ m.reviewers then
      { m with reviewers := m.reviewers ++ [uid] }
    else if role = .MAP_EDITOR ∧ uid ∉ m.editors then
      { m with editors := m.editors ++ [uid] }
    else if role = .MAP_OWNER ∧ uid ∉ m.owners then
      { m with owners := m.owners ++ [uid] }
    else m
  [Role.MAP_VIEWER, .MAP_REVIEWER, .MAP_EDITOR, .MAP_OWNER].foldl
    (fun acc r => if r ≠ role then revokeLists r uid acc else acc) m1

/-- Embeds Map.ChangePermissionLevel (model.py 782-805): EmptyMap raises a
read-only error (model.py 849); requires MAP_OWNER; a role outside the four
map roles returns before any mutation or put. -/
def mapChangePermissionLevel (pc : PermCtx) (ds : Datastore) (m : MapObj)
    (role : Role) (uid : String) : Except OpError Datastore :=
  if m.isEmptyStandIn then .error (.readOnly "EmptyMap is read-only")
  else if ¬ pc.allows .MAP_OWNER then .error .authorization
  else if ¬(role = .MAP_VIEWER ∨ role = .MAP_REVIEWER ∨ role = .MAP_EDITOR
      ∨ role = .MAP_OWNER) then .ok ds
  else .ok { ds with
             maps := putTable ds.maps m.model.key_name
               (changeLists role uid m.model) }

/-- Embeds CatalogEntryModel.Put (model.py 212-230): rejects a domain
containing ':', creates or overwrites the entry at domain:label, pointing it
at the map's current version and refreshing the denormalized fields.  A map
without a current version has no version key to store (GetCurrent would
fail on it). -/
def catalogEntryModelPut (now : Nat) (uid : String) (ds : Datastore)
    (domain label : String) (m : MapObj) (is_listed : Bool) :
    Except OpError Datastore :=
  if domain.data.contains ':' then .error (.valueError "Invalid domain")
  else
    match m.model.current_version with
    | none => .error (.valueError "map has no current version")
    | some vk =>
        let key := domain ++ ":" ++ label
        let base :=
          match lookupTable ds.entries key with
          | some e => e
          | none => ({ domain := domain, label := label, created := now,
                       creator_uid := uid } : CatalogEntryS)
        .ok { ds with
              entries := putTable ds.entries key
                { base with
                  updated := now, updater_uid := uid, title := m.model.title,
                  map_id := m.model.key_name, map_version := some vk,
                  is_listed := is_listed } }

/-- Embeds CatalogEntry.SetMapVersion (model.py 418-422); overridden to a
read-only error on EmptyCatalogEntry (model.py 866). -/
def setMapVersion (e : CatalogEntryObj) (m : MapObj) : Except OpError CatalogEntryObj :=
  if e.isEmptyStandIn then .error (.readOnly "EmptyCatalogEntry is read-only")
  else
    match m.model.current_version with
    | none => .error (.valueError "map has no current version")
    | some vk =>
        .ok { e with
              model :=
                { e.model with
                  map_id := m.model.key_name,
                  map_version := some vk, title := m.model.title } }

/-- Embeds CatalogEntry.Put (model.py 428-451); overridden to a read-only
error on EmptyCatalogEntry (model.py 867).  Requires CATALOG_EDITOR in the
entry's domain (the sticky-catalog ownership check of domains.py, not part
of src/, is elided), stamps updated/updater and stores the entry. -/
def catalogEntryPut (pc : PermCtx) (now : Nat) (uid : String) (ds : Datastore)
    (e : CatalogEntryObj) : Except OpError Datastore :=
  if e.isEmptyStandIn then .error (.readOnly "EmptyCatalogEntry is read-only")
  else if ¬ pc.allows .CATALOG_EDITOR then .error .authorization
  else .ok { ds with
             entries := putTable ds.entries
               (e.model.domain ++ ":" ++ e.model.label)
               { e.model with updated := now, updater_uid := uid } }

end CrisisMap

namespace CrisisMap

/-- A permission context in which the caller holds every role (an admin). -/
def adminPerms : PermCtx := ⟨fun _ => true⟩

/-- The empty backing store. -/
def emptyDs : Datastore := ⟨[], [], []⟩

/-- C5 counterexample: Map.Undelete is a mutating operation that EmptyMap
does not override, so calling it on the placeholder map (as an admin, on an
empty backing store) succeeds — it even writes a MapModel under key '0' —
instead of raising the read-only error the claim requires of every mutating
operation. -/
theorem empty_map_undelete_not_read_only :
    mapUndelete adminPerms "admin1" emptyDs emptyMap
      = .ok { maps := [("0", { emptyMapModel with deleted := 0, deleter_uid := none })],
              versions := [], entries := [] } := rfl

/-- C5 (amended): the reserved id '0' and label 'empty' resolve to the
built-in placeholders regardless of backing-store state, and each mutating
operation that the placeholder classes override (SetWorldReadable,
PutNewVersion, Delete, RevokePermission, ChangePermissionLevel on EmptyMap;
SetMapVersion, Put on EmptyCatalogEntry) raises the distinct read-only
error; mutators inherited unchanged, such as Undelete, are not intercepted. -/
theorem empty_placeholders_read_only_amended :
    (∀ ds pc, mapGet ds pc "0" = .ok (some emptyMap)) ∧
    (∀ ds domain, catalogEntryGet ds domain "empty" = some (emptyCatalogEntry domain)) ∧
    (∀ pc ds wr, mapSetWorldReadable pc ds emptyMap wr
      = .error (.readOnly "EmptyMap is read-only")) ∧
    (∀ pc now uid ds root, mapPutNewVersion pc now uid ds emptyMap root
      = .error (.readOnly "EmptyMap is read-only")) ∧
    (∀ pc now uid ds, mapDelete pc now uid ds emptyMap
      = .error (.readOnly "EmptyMap is read-only")) ∧
    (∀ pc ds role uid, mapRevokePermission pc ds emptyMap role uid
      = .error (.readOnly "EmptyMap is read-only")) ∧
    (∀ pc ds role uid, mapChangePermissionLevel pc ds emptyMap role uid
      = .error (.readOnly "EmptyMap is read-only")) ∧
    (∀ domain m, setMapVersion (emptyCatalogEntry domain) m
      = .error (.readOnly "EmptyCatalogEntry is read-only")) ∧
    (∀ pc now uid ds domain, catalogEntryPut pc now uid ds (emptyCatalogEntry domain)
      = .error (.readOnly "EmptyCatalogEntry is read-only")) :=
  ⟨fun _ _ => rfl, fun _ _ => rfl, fun _ _ _ => rfl, fun _ _ _ _ _ => rfl,
   fun _ _ _ _ => rfl, fun _ _ _ _ => rfl, fun _ _ _ _ => rfl, fun _ _ => rfl,
   fun _ _ _ _ _ => rfl⟩

/-- C7: publishing a new map version does not change the catalog entry
table at all, and repointing via CatalogEntryModel.Put sets exactly the one
entry at domain:label to the map's current version, leaving every other
entry unchanged. -/
theorem put_new_version_frames_catalog (pc : PermCtx) (now now2 : Nat) (uid : String)
    (ds : Datastore) (m : MapObj) (map_root : List (String × Json))
    (domain label : String) (lst : Bool) (ds2 ds3 : Datastore) (vid : Nat)
    (h1 : mapPutNewVersion pc now uid ds m map_root = .ok (ds2, vid))
    (h2 : catalogEntryModelPut now2 uid ds domain label m lst = .ok ds3) :
    ds2.entries = ds.entries ∧
    (lookupTable ds3.entries (domain ++ ":" ++ label)).map (fun e => e.map_version)
      = some m.model.current_version ∧
    ∀ key, key ≠ domain ++ ":" ++ label →
      lookupTable ds3.entries key = lookupTable ds.entries key := by
  refine ⟨?_, ?_, ?_⟩
  · unfold mapPutNewVersion at h1
    split at h1
    · cases h1
    · split at h1
      · cases h1
      · cases h1
        rfl
  · unfold catalogEntryModelPut at h2
    split at h2
    · cases h2
    · split at h2
      · cases h2
      · rename_i vk heq
        cases h2
        show (lookupTable (putTable ds.entries (domain ++ ":" ++ label) _)
          (domain ++ ":" ++ label)).map _ = _
        rw [lookupTable_putTable, if_pos rfl, heq]
        rfl
  · intro key hkey
    unfold catalogEntryModelPut at h2
    split at h2
    · cases h2
    · split at h2
      · cases h2
      · cases h2
        show lookupTable (putTable ds.entries (domain ++ ":" ++ label) _) key = _
        rw [lookupTable_putTable, if_neg (fun h => hkey h.symm)]

/-- The permission-holding demo objects for the witnesses. -/
def demoMapModel : MapModelS :=
  { key_name := "m1", domain := "example.com", current_version := some ⟨"m1", 1⟩ }

def demoMapObj : MapObj := { model := demoMapModel }

def demoDs : Datastore := { maps := [("m1", demoMapModel)], versions := [], entries := [] }

def demoDs2 : Datastore :=
  match mapPutNewVersion adminPerms 5 "u1" demoDs demoMapObj [] with
  | .ok (d, _) => d
  | .error _ => demoDs

def demoDs3 : Datastore :=
  match catalogEntryModelPut 7 "u1" demoDs "example.com" "lbl" demoMapObj true with
  | .ok d => d
  | .error _ => demoDs

theorem put_new_version_frames_catalog_witness :
    demoDs2.entries = demoDs.entries ∧
    (lookupTable demoDs3.entries ("example.com" ++ ":" ++ "lbl")).map
        (fun e => e.map_version)
      = some demoMapObj.model.current_version ∧
    lookupTable demoDs3.entries "other" = lookupTable demoDs.entries "other" :=
  ⟨(put_new_version_frames_catalog adminPerms 5 7 "u1" demoDs demoMapObj []
      "example.com" "lbl" true demoDs2 demoDs3 1 (by rfl) (by rfl)).1,
   (put_new_version_frames_catalog adminPerms 5 7 "u1" demoDs demoMapObj []
      "example.com" "lbl" true demoDs2 demoDs3 1 (by rfl) (by rfl)).2.1,
   (put_new_version_frames_catalog adminPerms 5 7 "u1" demoDs demoMapObj []
      "example.com" "lbl" true demoDs2 demoDs3 1 (by rfl) (by rfl)).2.2 "other" (by decide)⟩

theorem lookup_deleteByMapId {entries : List (String × CatalogEntryS)} {mid key : String}
    {e : CatalogEntryS} (h : lookupTable (deleteByMapId entries mid) key = some e) :
    e.map_id ≠ mid := by
  have hm := lookupTable_mem h
  have h2 := (List.mem_filter.1 hm).2
  simpa using h2

theorem lookup_deleteByMapId_keep {entries : List (String × CatalogEntryS)}
    {mid key : String} {e : CatalogEntryS}
    (hl : lookupTable entries key = some e) (hne : e.map_id ≠ mid) :
    lookupTable (deleteByMapId entries mid) key = some e := by
  induction entries with
  | nil => simp [lookupTable] at hl
  | cons p rest ih =>
      obtain ⟨k1, v1⟩ := p
      by_cases hk : k1 = key
      · subst hk
        simp only [lookupTable, if_pos rfl] at hl
        cases hl
        simp [deleteByMapId, List.filter_cons, hne, lookupTable]
      · simp only [lookupTable, if_neg hk] at hl
        have ihr := ih hl
        unfold deleteByMapId at ihr ⊢
        rw [List.filter_cons]
        split
        · simp only [lookupTable, if_neg hk]
          exact ihr
        · exact ihr

/-- C8: Map.Delete marks the map deleted with a non-NEVER sentinel while
keeping it in the store, and removes exactly the catalog entries that
reference the map, in every domain. -/
theorem map_delete_soft_and_cascades (pc : PermCtx) (now : Nat) (uid : String)
    (ds : Datastore) (m : MapObj) (ds2 : Datastore)
    (h : mapDelete pc now uid ds m = .ok ds2) (hnow : 0 < now) :
    lookupTable ds2.maps m.model.key_name
      = some { m.model with deleted := now, deleter_uid := some uid } ∧
    now ≠ 0 ∧
    (∀ key e, lookupTable ds2.entries key = some e → e.map_id ≠ m.model.key_name) ∧
    (∀ key e, lookupTable ds.entries key = some e → e.map_id ≠ m.model.key_name →
      lookupTable ds2.entries key = some e) := by
  unfold mapDelete at h
  split at h
  · cases h
  · split at h
    · cases h
    · cases h
      refine ⟨?_, by omega, ?_, ?_⟩
      · show lookupTable (putTable ds.maps _ _) _ = _
        rw [lookupTable_putTable, if_pos rfl]
      · intro key e hl
        exact lookup_deleteByMapId hl
      · intro key e hl hne
        exact lookup_deleteByMapId_keep hl hne

def demoEntryA : CatalogEntryS :=
  { domain := "example.com", label := "a", map_id := "m1", map_version := some ⟨"m1", 1⟩ }

def demoEntryB : CatalogEntryS :=
  { domain := "other.org", label := "b", map_id := "m2", map_version := some ⟨"m2", 1⟩ }

def demoDsDel : Datastore :=
  { maps := [("m1", demoMapModel)], versions := [],
    entries := [("example.com:a", demoEntryA), ("other.org:b", demoEntryB)] }

def demoDsDel2 : Datastore :=
  match mapDelete adminPerms 9 "u1" demoDsDel demoMapObj with
  | .ok d => d
  | .error _ => demoDsDel

theorem map_delete_soft_and_cascades_witness :
    lookupTable demoDsDel2.maps demoMapObj.model.key_name
      = some { demoMapObj.model with deleted := 9, deleter_uid := some "u1" } ∧
    (9 : Nat) ≠ 0 ∧
    demoEntryB.map_id ≠ demoMapObj.model.key_name ∧
    lookupTable demoDsDel2.entries "other.org:b" = some demoEntryB :=
  ⟨(map_delete_soft_and_cascades adminPerms 9 "u1" demoDsDel demoMapObj demoDsDel2
      rfl (by decide)).1,
   (map_delete_soft_and_cascades adminPerms 9 "u1" demoDsDel demoMapObj demoDsDel2
      rfl (by decide)).2.1,
   by decide,
   (map_delete_soft_and_cascades adminPerms 9 "u1" demoDsDel demoMapObj demoDsDel2
      rfl (by decide)).2.2.2 "other.org:b" demoEntryB rfl (by decide)⟩

end CrisisMap

namespace CrisisMap

theorem revokeLists_viewer_eq (uid : String) (m : MapModelS) :
    revokeLists .MAP_VIEWER uid m
      = if uid ∈ m.viewers then { m with viewers := m.viewers.erase uid } else m := by
  unfold revokeLists
  by_cases h : uid ∈ m.viewers <;> simp [h]

theorem revokeLists_reviewer_eq (uid : String) (m : MapModelS) :
    revokeLists .MAP_REVIEWER uid m
      = if uid ∈ m.reviewers then { m with reviewers := m.reviewers.erase uid } else m := by
  unfold revokeLists
  by_cases h : uid ∈ m.reviewers <;> simp [h]

theorem revokeLists_editor_eq (uid : String) (m : MapModelS) :
    revokeLists .MAP_EDITOR uid m
      = if uid ∈ m.editors then { m with editors := m.editors.erase uid } else m := by
  unfold revokeLists
  by_cases h : uid ∈ m.editors <;> simp [h]

theorem revokeLists_owner_eq (uid : String) (m : MapModelS) :
    revokeLists .MAP_OWNER uid m
      = if uid ∈ m.owners then { m with owners := m.owners.erase uid } else m := by
  unfold revokeLists
  by_cases h : uid ∈ m.owners <;> simp [h]

/-- The role-indexed permission lists of a map (empty for non-map roles). -/
def roleList (r : Role) (m : MapModelS) : List String :=
  match r with
  | .MAP_VIEWER => m.viewers
  | .MAP_REVIEWER => m.reviewers
  | .MAP_EDITOR => m.editors
  | .MAP_OWNER => m.owners
  | _ => []

/-- The four roles ChangePermissionLevel accepts. -/
def mapRoleP (r : Role) : Prop :=
  r = .MAP_VIEWER ∨ r = .MAP_REVIEWER ∨ r = .MAP_EDITOR ∨ r = .MAP_OWNER

theorem changeLists_viewer_fields (uid : String) (m : MapModelS) :
    changeLists .MAP_VIEWER uid m
      = { m with
          viewers := if uid ∉ m.viewers then m.viewers ++ [uid] else m.viewers,
          reviewers := if uid ∈ m.reviewers then m.reviewers.erase uid else m.reviewers,
          editors := if uid ∈ m.editors then m.editors.erase uid else m.editors,
          owners := if uid ∈ m.owners then m.owners.erase uid else m.owners } := by
  unfold changeLists
  simp only [List.foldl_cons, List.foldl_nil]
  by_cases h1 : uid ∈ m.viewers <;>
    by_cases h2 : uid ∈ m.reviewers <;>
    by_cases h3 : uid ∈ m.editors <;>
    by_cases h4 : uid ∈ m.owners <;>
    simp [h1, h2, h3, h4, revokeLists_reviewer_eq, revokeLists_editor_eq,
      revokeLists_owner_eq]

theorem changeLists_reviewer_fields (uid : String) (m : MapModelS) :
    changeLists .MAP_REVIEWER uid m
      = { m with
          viewers := if uid ∈ m.viewers then m.viewers.erase uid else m.viewers,
          reviewers := if uid ∉ m.reviewers then m.reviewers ++ [uid] else m.reviewers,
          editors := if uid ∈ m.editors then m.editors.erase uid else m.editors,
          owners := if uid ∈ m.owners then m.owners.erase uid else m.owners } := by
  unfold changeLists
  simp only [List.foldl_cons, List.foldl_nil]
  by_cases h1 : uid ∈ m.viewers <;>
    by_cases h2 : uid ∈ m.reviewers <;>
    by_cases h3 : uid ∈ m.editors <;>
    by_cases h4 : uid ∈ m.owners <;>
    simp [h1, h2, h3, h4, revokeLists_viewer_eq, revokeLists_editor_eq,
      revokeLists_owner_eq]

theorem changeLists_editor_fields (uid : String) (m : MapModelS) :
    changeLists .MAP_EDITOR uid m
      = { m with
          viewers := if uid ∈ m.viewers then m.viewers.erase uid else m.viewers,
          reviewers := if uid ∈ m.reviewers then m.reviewers.erase uid else m.reviewers,
          editors := if uid ∉ m.editors then m.editors ++ [uid] else m.editors,
          owners := if uid ∈ m.owners then m.owners.erase uid else m.owners } := by
  unfold changeLists
  simp only [List.foldl_cons, List.foldl_nil]
  by_cases h1 : uid ∈ m.viewers <;>
    by_cases h2 : uid ∈ m.reviewers <;>
    by_cases h3 : uid ∈ m.editors <;>
    by_cases h4 : uid ∈ m.owners <;>
    simp [h1, h2, h3, h4, revokeLists_viewer_eq, revokeLists_reviewer_eq,
      revokeLists_owner_eq]

theorem changeLists_owner_fields (uid : String) (m : MapModelS) :
    changeLists .MAP_OWNER uid m
      = { m with
          viewers := if uid ∈ m.viewers then m.viewers.erase uid else m.viewers,
          reviewers := if uid ∈ m.reviewers then m.reviewers.erase uid else m.reviewers,
          editors := if uid ∈ m.editors then m.editors.erase uid else m.editors,
          owners := if uid ∉ m.owners then m.owners ++ [uid] else m.owners } := by
  unfold changeLists
  simp only [List.foldl_cons, List.foldl_nil]
  by_cases h1 : uid ∈ m.viewers <;>
    by_cases h2 : uid ∈ m.reviewers <;>
    by_cases h3 : uid ∈ m.editors <;>
    by_cases h4 : uid ∈ m.owners <;>
    simp [h1, h2, h3, h4, revokeLists_viewer_eq, revokeLists_reviewer_eq,
      revokeLists_editor_eq]

theorem not_mem_erase_branch {l : List String} {uid : String} (hc : l.count uid ≤ 1) :
    uid ∉ (if uid ∈ l then l.erase uid else l) := by
  split
  · rename_i h
    intro hm
    have h1 : (l.erase uid).count uid = l.count uid - 1 := List.count_erase_self uid l
    have h2 : 0 < (l.erase uid).count uid := List.count_pos_iff.2 hm
    have h3 : 0 < l.count uid := List.count_pos_iff.2 h
    omega
  · rename_i h
    exact h

theorem mem_append_branch (l : List String) (uid : String) :
    uid ∈ (if uid ∉ l then l ++ [uid] else l) := by
  split
  · exact List.mem_append_right _ (List.mem_singleton_self uid)
  · rename_i h
    exact not_not.1 h

theorem changeLists_single_role (role : Role) (uid : String) (m : MapModelS)
    (hrole : mapRoleP role) (hco : ∀ r, (roleList r m).count uid ≤ 1) :
    uid ∈ roleList role (changeLists role uid m) ∧
    ∀ r2, mapRoleP r2 → r2 ≠ role → uid ∉ roleList r2 (changeLists role uid m) := by
  rcases hrole with rfl | rfl | rfl | rfl
  · rw [changeLists_viewer_fields]
    refine ⟨mem_append_branch m.viewers uid, ?_⟩
    rintro r2 (rfl | rfl | rfl | rfl) hne
    · exact absurd rfl hne
    · exact not_mem_erase_branch (hco .MAP_REVIEWER)
    · exact not_mem_erase_branch (hco .MAP_EDITOR)
    · exact not_mem_erase_branch (hco .MAP_OWNER)
  · rw [changeLists_reviewer_fields]
    refine ⟨mem_append_branch m.reviewers uid, ?_⟩
    rintro r2 (rfl | rfl | rfl | rfl) hne
    · exact not_mem_erase_branch (hco .MAP_VIEWER)
    · exact absurd rfl hne
    · exact not_mem_erase_branch (hco .MAP_EDITOR)
    · exact not_mem_erase_branch (hco .MAP_OWNER)
  · rw [changeLists_editor_fields]
    refine ⟨mem_append_branch m.editors uid, ?_⟩
    rintro r2 (rfl | rfl | rfl | rfl) hne
    · exact not_mem_erase_branch (hco .MAP_VIEWER)
    · exact not_mem_erase_branch (hco .MAP_REVIEWER)
    · exact absurd rfl hne
    · exact not_mem_erase_branch (hco .MAP_OWNER)
  · rw [changeLists_owner_fields]
    refine ⟨mem_append_branch m.owners uid, ?_⟩
    rintro r2 (rfl | rfl | rfl | rfl) hne
    · exact not_mem_erase_branch (hco .MAP_VIEWER)
    · exact not_mem_erase_branch (hco .MAP_REVIEWER)
    · exact not_mem_erase_branch (hco .MAP_EDITOR)
    · exact absurd rfl hne

/-- C9: after ChangePermissionLevel with one of the four map roles, the user
holds exactly that role (member of its list, absent from the other three);
with any other role the call changes nothing.  The permission lists are sets
of user ids: each id occurs at most once per list. -/
theorem change_permission_single_role (pc : PermCtx) (ds : Datastore) (m : MapObj)
    (role : Role) (uid : String) (ds2 : Datastore)
    (hco : ∀ r, (roleList r m.model).count uid ≤ 1)
    (hok : mapChangePermissionLevel pc ds m role uid = .ok ds2) :
    (mapRoleP role →
      ∃ m2, lookupTable ds2.maps m.model.key_name = some m2 ∧
        uid ∈ roleList role m2 ∧
        ∀ r2, mapRoleP r2 → r2 ≠ role → uid ∉ roleList r2 m2) ∧
    (¬ mapRoleP role → ds2 = ds) := by
  unfold mapChangePermissionLevel at hok
  split at hok
  · cases hok
  · split at hok
    · cases hok
    · split at hok
      · rename_i hinv
        cases hok
        constructor
        · intro hrole
          exact absurd hrole hinv
        · intro _
          rfl
      · rename_i hinv
        cases hok
        constructor
        · intro hrole
          refine ⟨changeLists role uid m.model, ?_, ?_⟩
          · show lookupTable (putTable ds.maps _ _) _ = _
            rw [lookupTable_putTable, if_pos rfl]
          · exact changeLists_single_role role uid m.model hrole hco
        · intro hnrole
          exact absurd (not_not.1 hinv) hnrole

def demoPermMap : MapModelS :=
  { key_name := "m2", domain := "example.com",
    owners := ["u1"], editors := ["u2"], reviewers := [], viewers := ["u2"] }

def demoPermDs : Datastore := { maps := [("m2", demoPermMap)], versions := [], entries := [] }

def demoPermDs2 : Datastore :=
  match mapChangePermissionLevel adminPerms demoPermDs { model := demoPermMap }
      .MAP_OWNER "u2" with
  | .ok d => d
  | .error _ => demoPermDs

theorem change_permission_single_role_witness :
    (∀ r, (roleList r demoPermMap).count "u2" ≤ 1) ∧
    (mapRoleP Role.MAP_OWNER →
      ∃ m2, lookupTable demoPermDs2.maps "m2" = some m2 ∧
        "u2" ∈ roleList .MAP_OWNER m2 ∧
        ∀ r2, mapRoleP r2 → r2 ≠ .MAP_OWNER → "u2" ∉ roleList r2 m2) :=
  ⟨fun r => by cases r <;> simp [roleList, demoPermMap],
   (change_permission_single_role adminPerms demoPermDs { model := demoPermMap }
      .MAP_OWNER "u2" demoPermDs2
      (fun r => by cases r <;> simp [roleList, demoPermMap]) (by rfl)).1⟩

end CrisisMap

namespace CrisisMap

/-! ## Catalog listing order (CatalogEntryModel.GetAll / GetListed)

The datastore query `all().order('-updated')` returns the matching entities
sorted by descending update time; `GetListed` adds an equality filter on
is_listed to the same query.
-/

/-- Reverse update order on catalog entries. -/
def updatedDesc (a b : CatalogEntryS) : Prop := b.updated ≤ a.updated

instance : DecidableRel updatedDesc := fun a b => Nat.decLe b.updated a.updated

instance : IsTrans CatalogEntryS updatedDesc :=
  ⟨fun _ _ _ hab hbc => Nat.le_trans hbc hab⟩

instance : IsTotal CatalogEntryS updatedDesc :=
  ⟨fun a b => Nat.le_total b.updated a.updated⟩

/-- The optional domain equality filter of GetAll. -/
def entryDomainMatch (domain : Option String) (e : CatalogEntryS) : Bool :=
  match domain with
  | none => true
  | some d => e.domain == d

/-- Embeds CatalogEntryModel.GetAll (model.py 199-205): all entries in
reverse update order, optionally filtered by domain. -/
def catalogGetAll (entries : List (String × CatalogEntryS)) (domain : Option String) :
    List CatalogEntryS :=
  List.insertionSort updatedDesc ((entries.map Prod.snd).filter (entryDomainMatch domain))

/-- Embeds CatalogEntryModel.GetListed (model.py 207-210): GetAll's query
with an additional is_listed filter. -/
def catalogGetListed (entries : List (String × CatalogEntryS)) (domain : Option String) :
    List CatalogEntryS :=
  List.insertionSort updatedDesc ((entries.map Prod.snd).filter
    (fun e => entryDomainMatch domain e && e.is_listed))

theorem orderedInsert_eq_cons {α : Type} (r : α → α → Prop) [DecidableRel r] (x : α)
    (l : List α) (h : ∀ z ∈ l, r x z) : List.orderedInsert r x l = x :: l := by
  cases l with
  | nil => rfl
  | cons y ys => simp [List.orderedInsert, h y (List.mem_cons_self _ _)]

theorem filter_orderedInsert {α : Type} (r : α → α → Prop) [DecidableRel r] [IsTrans α r]
    (p : α → Bool) (x : α) :
    ∀ l : List α, List.Sorted r l → p x = true →
      (List.orderedInsert r x l).filter p = List.orderedInsert r x (l.filter p) := by
  intro l
  induction l with
  | nil => intro _ hx; simp [List.orderedInsert, List.filter_cons, hx]
  | cons y ys ih =>
      intro hs hx
      rw [List.sorted_cons] at hs
      by_cases hr : r x y
      · cases hpy : p y
        · simp only [List.orderedInsert, if_pos hr, List.filter_cons, hx, hpy,
            if_true, if_false, Bool.false_eq_true]
          exact (orderedInsert_eq_cons r x _ (fun z hz =>
            Trans.trans hr (hs.1 z (List.mem_of_mem_filter hz)))).symm
        · simp only [List.orderedInsert, if_pos hr, List.filter_cons, hx, hpy, if_true]
      · cases hpy : p y
        · simp only [List.orderedInsert, if_neg hr, List.filter_cons, hpy,
            Bool.false_eq_true, if_false]
          exact ih hs.2 hx
        · simp only [List.orderedInsert, if_neg hr, List.filter_cons, hpy, if_true]
          rw [ih hs.2 hx]

theorem filter_orderedInsert_neg {α : Type} (r : α → α → Prop) [DecidableRel r]
    (p : α → Bool) (x : α) (hx : p x = false) :
    ∀ l : List α, (List.orderedInsert r x l).filter p = l.filter p := by
  intro l
  induction l with
  | nil => simp [List.orderedInsert, List.filter_cons, hx]
  | cons y ys ih =>
      by_cases hr : r x y
      · simp only [List.orderedInsert, if_pos hr, List.filter_cons, hx,
          Bool.false_eq_true, if_false]
      · simp only [List.orderedInsert, if_neg hr, List.filter_cons]
        cases hpy : p y
        · simp only [Bool.false_eq_true, if_false]
          exact ih
        · simp only [if_true, ih]

theorem filter_insertionSort {α : Type} (r : α → α → Prop) [DecidableRel r]
    [IsTotal α r] [IsTrans α r] (p : α → Bool) (l : List α) :
    (List.insertionSort r l).filter p = List.insertionSort r (l.filter p) := by
  induction l with
  | nil => rfl
  | cons x xs ih =>
      rw [List.insertionSort]
      cases hx : p x
      · rw [filter_orderedInsert_neg r p x hx, ih, List.filter_cons]
        simp only [hx, Bool.false_eq_true, if_false]
      · rw [filter_orderedInsert r p x _ (List.sorted_insertionSort r _) hx, ih,
          List.filter_cons]
        simp only [hx, if_true]
        rw [List.insertionSort]

/-- C6: catalog listings are returned ordered by descending update time, and
GetListed is exactly the is_listed subset of GetAll, in the same order. -/
theorem catalog_listing_sorted_and_subset (entries : List (String × CatalogEntryS))
    (domain : Option String) :
    List.Sorted updatedDesc (catalogGetAll entries domain) ∧
    List.Sorted updatedDesc (catalogGetListed entries domain) ∧
    catalogGetListed entries domain
      = (catalogGetAll entries domain).filter (fun e => e.is_listed) := by
  refine ⟨List.sorted_insertionSort _ _, List.sorted_insertionSort _ _, ?_⟩
  rw [catalogGetListed, catalogGetAll, filter_insertionSort]
  congr 1
  rw [List.filter_filter]
  apply List.filter_congr
  intro e _
  exact Bool.and_comm _ _

end CrisisMap

namespace CrisisMap

/-- Modelled from the spec: `CatalogEntry.GetAllInDomain` — catalog.py calls
model.CatalogEntry.GetAllInDomain(domain), which src/model.py does not
define; per the spec the catalog page operates on the catalog entries of one
domain. -/
def getAllInDomain (ds : Datastore) (domain : String) : List (String × CatalogEntryS) :=
  ds.entries.filter (fun p => p.2.domain == domain)

/-- One iteration of Catalog.post's loop (catalog.py 40-45): read the
checkbox value for the entry's label (only checked boxes are sent, so a
missing field reads as the empty string, which is falsy), and flip
is_listed and persist via CatalogEntry.Put — which stamps updated and
updater (model.py 441-443) — only when the value differs.  The accumulator
carries the datastore and the keys written so far.  CatalogEntry.Put's
permission checks are elided (they raise before any write). -/
def postStep (now : Nat) (uid : String) (req : String → String)
    (acc : Datastore × List String) (p : String × CatalogEntryS) :
    Datastore × List String :=
  let value : Bool := req p.2.label != ""
  if p.2.is_listed != value then
    ({ acc.1 with
       entries := putTable acc.1.entries p.1
         { p.2 with is_listed := value, updated := now, updater_uid := uid } },
     acc.2 ++ [p.1])
  else acc

/-- Embeds Catalog.post (catalog.py 37-46): iterate the domain's entries,
toggling and persisting only changed ones, then redirect to the domain's
catalog page.  Returns the datastore, the written keys, and the redirect
path. -/
def catalogPost (now : Nat) (uid : String) (ds : Datastore) (domain : String)
    (req : String → String) : Datastore × List String × String :=
  ((((getAllInDomain ds domain).foldl (postStep now uid req) (ds, []))).1,
   (((getAllInDomain ds domain).foldl (postStep now uid req) (ds, []))).2,
   "/crisismap/a/" ++ domain)

theorem postFold_untouched (now : Nat) (uid : String) (req : String → String) :
    ∀ (todo : List (String × CatalogEntryS)) (acc : Datastore × List String)
      (key : String), key ∉ todo.map Prod.fst →
      lookupTable (todo.foldl (postStep now uid req) acc).1.entries key
        = lookupTable acc.1.entries key := by
  intro todo
  induction todo with
  | nil => intro acc key _; rfl
  | cons p rest ih =>
      intro acc key hk
      simp only [List.map_cons, List.mem_cons, not_or] at hk
      rw [List.foldl_cons, ih _ key hk.2]
      simp only [postStep]
      split
      · show lookupTable (putTable acc.1.entries p.1 _) key = _
        rw [lookupTable_putTable, if_neg (fun h => hk.1 h.symm)]
      · rfl

theorem postFold_writes (now : Nat) (uid : String) (req : String → String) :
    ∀ (todo : List (String × CatalogEntryS)) (acc : Datastore × List String),
      (todo.foldl (postStep now uid req) acc).2
        = acc.2 ++ (todo.filter
            (fun p => p.2.is_listed != (req p.2.label != ""))).map Prod.fst := by
  intro todo
  induction todo with
  | nil => intro acc; simp
  | cons p rest ih =>
      intro acc
      rw [List.foldl_cons, ih, List.filter_cons]
      simp only [postStep]
      split
      · simp
      · rfl

theorem postFold_member (now : Nat) (uid : String) (req : String → String) :
    ∀ (todo : List (String × CatalogEntryS)) (acc : Datastore × List String)
      (key : String) (e : CatalogEntryS),
      (key, e) ∈ todo → (todo.map Prod.fst).Nodup →
      lookupTable (todo.foldl (postStep now uid req) acc).1.entries key
        = if e.is_listed != (req e.label != "") then
            some { e with
                   is_listed := req e.label != "", updated := now,
                   updater_uid := uid }
          else lookupTable acc.1.entries key := by
  intro todo
  induction todo with
  | nil => intro acc key e hmem _; simp at hmem
  | cons p rest ih =>
      intro acc key e hmem hnd
      simp only [List.map_cons, List.nodup_cons] at hnd
      rw [List.foldl_cons]
      rcases List.mem_cons.1 hmem with h | h
      · have hp : p = (key, e) := h.symm
        subst hp
        have hk : key ∉ rest.map Prod.fst := hnd.1
        rw [postFold_untouched now uid req rest _ key hk]
        simp only [postStep]
        split
        · show lookupTable (putTable acc.1.entries key _) key = _
          rw [lookupTable_putTable, if_pos rfl]
        · rfl
      · have hpk : p.1 ≠ key := by
          intro hh
          exact hnd.1 (by rw [hh]; exact List.mem_map_of_mem Prod.fst h)
        rw [ih _ key e h hnd.2]
        have hacc : lookupTable ((postStep now uid req acc p).1).entries key
            = lookupTable acc.1.entries key := by
          simp only [postStep]
          split
          · show lookupTable (putTable acc.1.entries p.1 _) key = _
            rw [lookupTable_putTable, if_neg hpk]
          · rfl
        rw [hacc]

theorem mem_unique_of_nodup_keys {κ α : Type} [DecidableEq κ] {t : List (κ × α)}
    {k : κ} {a b : α} (hnd : (t.map Prod.fst).Nodup)
    (ha : (k, a) ∈ t) (hb : (k, b) ∈ t) : a = b := by
  induction t with
  | nil => simp at ha
  | cons p rest ih =>
      simp only [List.map_cons, List.nodup_cons] at hnd
      rcases List.mem_cons.1 ha with h1 | h1 <;> rcases List.mem_cons.1 hb with h2 | h2
      · exact congrArg Prod.snd (h1.trans h2.symm)
      · exfalso
        apply hnd.1
        have hp1 : p.1 = k := by rw [← h1]
        rw [hp1]
        simpa using List.mem_map_of_mem Prod.fst h2
      · exfalso
        apply hnd.1
        have hp1 : p.1 = k := by rw [← h2]
        rw [hp1]
        simpa using List.mem_map_of_mem Prod.fst h1
      · exact ih hnd.2 h1 h2

end CrisisMap

namespace CrisisMap

theorem lookup_of_mem_nodup {κ α : Type} [DecidableEq κ] {t : List (κ × α)} {k : κ}
    {v : α} (hmem : (k, v) ∈ t) (hnd : (t.map Prod.fst).Nodup) :
    lookupTable t k = some v := by
  induction t with
  | nil => simp at hmem
  | cons p rest ih =>
      obtain ⟨k1, v1⟩ := p
      simp only [List.map_cons, List.nodup_cons] at hnd
      rcases List.mem_cons.1 hmem with h | h
      · injection h with h1 h2
        subst h1
        subst h2
        simp [lookupTable]
      · have hne : k1 ≠ k := by
          intro he
          subst he
          exact hnd.1 (by simpa using List.mem_map_of_mem Prod.fst h)
        simp [lookupTable, hne, ih h hnd.2]

/-- C10: Catalog.post reads one checkbox boolean per entry label, sets
is_listed and persists the entry only when the value differs from the
stored one (the written-keys list contains exactly the changed entries of
the domain), leaves entries of other domains untouched, and redirects to
the domain's catalog page. -/
theorem catalog_post_toggles_changed_only (now : Nat) (uid : String) (ds : Datastore)
    (domain : String) (req : String → String)
    (hnd : (ds.entries.map Prod.fst).Nodup) :
    (∀ key e, (key, e) ∈ ds.entries → e.domain = domain →
      (lookupTable (catalogPost now uid ds domain req).1.entries key
        = if e.is_listed != (req e.label != "") then
            some { e with
                   is_listed := req e.label != "", updated := now,
                   updater_uid := uid }
          else some e) ∧
      (key ∈ (catalogPost now uid ds domain req).2.1 ↔
        (e.is_listed != (req e.label != "")) = true)) ∧
    (∀ key e, (key, e) ∈ ds.entries → e.domain ≠ domain →
      lookupTable (catalogPost now uid ds domain req).1.entries key = some e) ∧
    (catalogPost now uid ds domain req).2.2 = "/crisismap/a/" ++ domain := by
  have htodo_nd : ((getAllInDomain ds domain).map Prod.fst).Nodup :=
    hnd.sublist ((List.filter_sublist ds.entries).map Prod.fst)
  refine ⟨?_, ?_, rfl⟩
  · intro key e hmem hdom
    have hin : (key, e) ∈ getAllInDomain ds domain :=
      List.mem_filter.2 ⟨hmem, by simp [hdom]⟩
    constructor
    · show lookupTable ((getAllInDomain ds domain).foldl
          (postStep now uid req) (ds, [])).1.entries key = _
      rw [postFold_member now uid req _ (ds, []) key e hin htodo_nd]
      show (if _ then _ else lookupTable ds.entries key) = _
      rw [lookup_of_mem_nodup hmem hnd]
    · show key ∈ ((getAllInDomain ds domain).foldl
          (postStep now uid req) (ds, [])).2 ↔ _
      rw [postFold_writes now uid req _ (ds, [])]
      simp only [List.nil_append]
      constructor
      · intro hk
        obtain ⟨q, hq, hqk⟩ := List.mem_map.1 hk
        obtain ⟨hq1, hq2⟩ := List.mem_filter.1 hq
        have hqmem : (key, q.2) ∈ ds.entries := by
          rw [← hqk]
          simpa using List.mem_of_mem_filter hq1
        have : q.2 = e := mem_unique_of_nodup_keys hnd hqmem hmem
        rw [← this]
        exact hq2
      · intro hch
        exact List.mem_map.2 ⟨(key, e), List.mem_filter.2 ⟨hin, hch⟩, rfl⟩
  · intro key e hmem hdomne
    have hnot : key ∉ (getAllInDomain ds domain).map Prod.fst := by
      intro hk
      obtain ⟨q, hq, hqk⟩ := List.mem_map.1 hk
      obtain ⟨hq1, hq2⟩ := List.mem_filter.1 hq
      have hqmem : (key, q.2) ∈ ds.entries := by
        rw [← hqk]
        simpa using hq1
      have hqe : q.2 = e := mem_unique_of_nodup_keys hnd hqmem hmem
      rw [hqe] at hq2
      simp only [beq_iff_eq, decide_eq_true_eq] at hq2
      exact hdomne hq2
    show lookupTable ((getAllInDomain ds domain).foldl
        (postStep now uid req) (ds, [])).1.entries key = _
    rw [postFold_untouched now uid req _ (ds, []) key hnot]
    exact lookup_of_mem_nodup hmem hnd

/-- Checkbox request that checks only the label "a". -/
def demoReq : String → String := fun lbl => if lbl = "a" then "on" else ""

theorem catalog_post_toggles_changed_only_witness :
    (lookupTable (catalogPost 11 "u1" demoDsDel "example.com" demoReq).1.entries
        "example.com:a"
      = if demoEntryA.is_listed != (demoReq demoEntryA.label != "") then
          some { demoEntryA with
                 is_listed := demoReq demoEntryA.label != "", updated := 11,
                 updater_uid := "u1" }
        else some demoEntryA) ∧
    ("example.com:a" ∈ (catalogPost 11 "u1" demoDsDel "example.com" demoReq).2.1 ↔
      (demoEntryA.is_listed != (demoReq demoEntryA.label != "")) = true) ∧
    lookupTable (catalogPost 11 "u1" demoDsDel "example.com" demoReq).1.entries
        "other.org:b" = some demoEntryB ∧
    (catalogPost 11 "u1" demoDsDel "example.com" demoReq).2.2
      = "/crisismap/a/" ++ "example.com" :=
  ⟨((catalog_post_toggles_changed_only 11 "u1" demoDsDel "example.com" demoReq
      (by decide)).1 "example.com:a" demoEntryA (by decide) (by decide)).1,
   ((catalog_post_toggles_changed_only 11 "u1" demoDsDel "example.com" demoReq
      (by decide)).1 "example.com:a" demoEntryA (by decide) (by decide)).2,
   (catalog_post_toggles_changed_only 11 "u1" demoDsDel "example.com" demoReq
      (by decide)).2.1 "other.org:b" demoEntryB (by decide) (by decide),
   (catalog_post_toggles_changed_only 11 "u1" demoDsDel "example.com" demoReq
      (by decide)).2.2⟩

end CrisisMap
